import Mathlib

/-!
# Verification of the CodeKey typing-tutor session store (`src/lib/storage.ts`)

Shallow embedding of the IndexedDB-backed session store and statistics
engine.  Each object store of the database is modelled as a list of
records; `db.put` is an upsert keyed by the record's primary key
(`keyPath`), `db.delete` removes the record with the given key, and the
`by-date` indexes enumerate the records in ascending date order
(modelled by a sort).  JavaScript numbers that the code only ever treats
as integers (timestamps in milliseconds, WPM, counts, positions) are
modelled as `Int`/`Nat`; the two places where the code performs
non-integral arithmetic (`Math.round` of an average or a rate) are
modelled exactly over `ℚ`, with `round` matching JS `Math.round`
(round half towards `+∞`).  Sources of nondeterminism of the runtime
(`uuidv4()`, `Date.now()`, `new Date()`'s calendar day and hour) are
passed as explicit parameters.
-/

/-- `Session` record (`storage.ts`, interface `Session`). `date` is a
millisecond timestamp. -/
structure Session where
  id : String
  date : Int
  language : String
  difficulty : String
  wpm : Int
  accuracy : Int
  errors : Int
  duration : Int
  charactersTyped : Int
  theme : String
deriving DecidableEq, Inhabited

/-- `ErrorPattern` record (`storage.ts`, interface `ErrorPattern`). -/
structure ErrorPattern where
  id : String
  date : Int
  expected : String
  typed : String
  position : Int
deriving DecidableEq, Inhabited

/-- `Achievement` record (`storage.ts`, interface `Achievement`). -/
structure Achievement where
  id : String
  unlockedAt : Int
  key : String
deriving DecidableEq, Inhabited

/-- The three daily-challenge kinds (`DailyChallenge['type']`). -/
inductive ChallengeType where
  | speed
  | accuracy
  | language
deriving DecidableEq, Inhabited

/-- `DailyChallenge` (`storage.ts`, interface `DailyChallenge`). -/
structure DailyChallenge where
  date : String
  type : ChallengeType
  target : Nat
  language : Option String
  completed : Bool
deriving DecidableEq, Inhabited

/-- A value stored in the `settings` store
(`string | number | boolean | object`).  The only `object` value the
program ever stores under a settings key is the serialized daily
challenge, so that case is modelled by the `obj` constructor. -/
inductive SettingValue where
  | str : String → SettingValue
  | num : Int → SettingValue
  | bool : Bool → SettingValue
  | obj : DailyChallenge → SettingValue
deriving DecidableEq, Inhabited

/-- A record of the `settings` store (`keyPath: 'key'`). -/
structure Setting where
  key : String
  value : SettingValue
deriving DecidableEq, Inhabited

/-- The state of the `codekey-typing-tutor` database (schema version 2):
its four object stores. -/
structure Store where
  sessions : List Session
  settings : List Setting
  errorPatterns : List ErrorPattern
  achievements : List Achievement
deriving DecidableEq, Inhabited

/-- The empty database, as created by the schema upgrade. -/
def emptyStore : Store := ⟨[], [], [], []⟩

/-- `MAX_SESSIONS` (`storage.ts` line 63). -/
def MAX_SESSIONS : Nat := 1000

/-- `db.put` on an object store: upsert by primary key.  If a record
with the same key exists it is replaced in place, otherwise the record
is added. -/
def putByKey {α : Type} (key : α → String) (v : α) (l : List α) : List α :=
  if l.any (fun x => decide (key x = key v)) then
    l.map (fun x => if key x = key v then v else x)
  else
    l ++ [v]

/-- `db.put('sessions', s)` (`keyPath: 'id'`). -/
def putSession (s : Session) (l : List Session) : List Session :=
  putByKey (fun x => x.id) s l

/-- `db.delete('sessions', id)`. -/
def deleteSession (id : String) (l : List Session) : List Session :=
  l.filter (fun x => decide (x.id ≠ id))

/-- Ascending-date order used by the `by-date` index on `sessions`. -/
def byDateLe (a b : Session) : Prop := a.date ≤ b.date

instance : DecidableRel byDateLe := fun a b =>
  inferInstanceAs (Decidable (a.date ≤ b.date))

instance : IsTotal Session byDateLe := ⟨fun a b => le_total a.date b.date⟩

instance : IsTrans Session byDateLe := ⟨fun _ _ _ => le_trans⟩

/-- `db.getAllFromIndex('sessions', 'by-date')`: the session records in
ascending date order. -/
def sortByDate (l : List Session) : List Session :=
  List.insertionSort byDateLe l

/-- `cleanupOldSessions` (`storage.ts` lines 106–117): when the record
count exceeds `MAX_SESSIONS`, delete the `count - MAX_SESSIONS` records
that come first in `by-date` order. -/
def cleanupOldSessions (st : Store) : Store :=
  let count := st.sessions.length
  if MAX_SESSIONS < count then
    let allSessions := sortByDate st.sessions
    let toDelete := allSessions.take (count - MAX_SESSIONS)
    { st with sessions := toDelete.foldl (fun cur s => deleteSession s.id cur) st.sessions }
  else
    st

/-- `saveSession` (`storage.ts` lines 91–104).  The session is stored
under a fresh `uuidv4()` id, modelled by the explicit `newId`
parameter; then `cleanupOldSessions` runs. -/
def saveSession (session : Session) (newId : String) (st : Store) : Session × Store :=
  let newSession : Session := { session with id := newId }
  let st' : Store := { st with sessions := putSession newSession st.sessions }
  (newSession, cleanupOldSessions st')

/-- `getSessions` (`storage.ts` lines 119–123): the sessions in
descending date order, truncated to `limit`. -/
def getSessions (limit : Nat) (st : Store) : List Session :=
  ((sortByDate st.sessions).reverse).take limit

/-- `clearHistory` (`storage.ts` lines 195–198): `db.clear('sessions')`. -/
def clearHistory (st : Store) : Store :=
  { st with sessions := [] }

/-- `exportData` (`storage.ts` lines 200–203).  The code JSON-stringifies
`getSessions(MAX_SESSIONS)`; since `JSON.parse ∘ JSON.stringify` is the
identity on these flat records of strings and integers, the model works
at the level of the parsed session list. -/
def exportData (st : Store) : List Session :=
  getSessions MAX_SESSIONS st

/-- `importData` (`storage.ts` lines 205–216).  The code parses the JSON
into a `Session[]` (modelled by taking the parsed list directly) and
`db.put`s every entry, counting them; no cleanup runs. -/
def importData (data : List Session) (st : Store) : Store × Nat :=
  data.foldl
    (fun p session => ({ p.1 with sessions := putSession session p.1.sessions }, p.2 + 1))
    (st, 0)

/-- Milliseconds per day (`24 * 60 * 60 * 1000`). -/
def MS_PER_DAY : Int := 86400000

/-- `sortedByDate.some(s => s.date >= dayStart && s.date < dayEnd)` for
the day window starting at `dayStart`. -/
def hasSessionOnDay (l : List Session) (dayStart : Int) : Bool :=
  l.any (fun s => decide (dayStart ≤ s.date ∧ s.date < dayStart + MS_PER_DAY))

/-- Descending-date order used by
`[...sessions].sort((a, b) => b.date - a.date)`. -/
def byDateGe (a b : Session) : Prop := b.date ≤ a.date

instance : DecidableRel byDateGe := fun a b =>
  inferInstanceAs (Decidable (b.date ≤ a.date))

/-- The streak loop of `getStats` (`storage.ts` lines 170–183):
`for (let i = 0; i < 365; i++)`, counting days that have a session and
breaking at the first sessionless day with `i > 0`.  `fuel` is the
number of loop iterations left. -/
def streakGo (hasDay : Nat → Bool) : Nat → Nat → Nat → Nat
  | 0, _, streak => streak
  | fuel + 1, i, streak =>
    if hasDay i then streakGo hasDay fuel (i + 1) (streak + 1)
    else if 0 < i then streak
    else streakGo hasDay fuel (i + 1) streak

/-- `Math.max(...xs)` over a nonempty integer list (the empty case is
unreachable behind the `sessions.length === 0` guard). -/
def listMax : List Int → Int
  | [] => 0
  | x :: xs => xs.foldl max x

/-- The result record of `getStats`. -/
structure Stats where
  totalSessions : Nat
  bestWpm : Int
  averageWpm : Int
  averageAccuracy : Int
  totalTime : Int
  currentStreak : Nat
deriving DecidableEq, Inhabited

/-- `getStats` (`storage.ts` lines 137–193).  `today` is the timestamp
of local midnight (`new Date()` with hours zeroed); calendar days are
uniform 24-hour windows (daylight-saving shifts are outside the model).
`db.getAll('sessions')` enumerates records in key order; every
aggregate below is insensitive to that order, so the model reads the
store list directly. -/
def getStats (today : Int) (st : Store) : Stats :=
  let sessions := st.sessions
  if sessions.length = 0 then
    { totalSessions := 0, bestWpm := 0, averageWpm := 0, averageAccuracy := 0,
      totalTime := 0, currentStreak := 0 }
  else
    let sortedByDate := List.insertionSort byDateGe sessions
    let bestWpm := listMax (sessions.map (fun s => s.wpm))
    let averageWpm : Int :=
      round ((((sessions.map (fun s => s.wpm)).sum : Int) : ℚ) / (sessions.length : ℚ))
    let averageAccuracy : Int :=
      round ((((sessions.map (fun s => s.accuracy)).sum : Int) : ℚ) / (sessions.length : ℚ))
    let totalTime := (sessions.map (fun s => s.duration)).sum
    let streak :=
      streakGo (fun i => hasSessionOnDay sortedByDate (today - (i : Int) * MS_PER_DAY)) 365 0 0
    { totalSessions := sessions.length, bestWpm := bestWpm, averageWpm := averageWpm,
      averageAccuracy := averageAccuracy, totalTime := totalTime, currentStreak := streak }

/-- Day `i` (counting back from `today`) has at least one session. -/
def hasDayB (st : Store) (today : Int) (i : Nat) : Bool :=
  hasSessionOnDay st.sessions (today - (i : Int) * MS_PER_DAY)

/-- Length of the maximal run of consecutive `hasDay` days starting at
day `i`, scanning at most `fuel` days (the claim's "consecutive days
with a session, breaking on the first gap"). -/
def consecRun (hasDay : Nat → Bool) : Nat → Nat → Nat
  | _, 0 => 0
  | i, fuel + 1 => if hasDay i then 1 + consecRun hasDay (i + 1) fuel else 0

/-- `db.put('errorPatterns', p)` (`keyPath: 'id'`). -/
def putPattern (p : ErrorPattern) (l : List ErrorPattern) : List ErrorPattern :=
  putByKey (fun x => x.id) p l

/-- `db.delete('errorPatterns', id)`. -/
def deletePattern (id : String) (l : List ErrorPattern) : List ErrorPattern :=
  l.filter (fun x => decide (x.id ≠ id))

/-- Ascending-date order used by the `by-date` index on `errorPatterns`. -/
def patternDateLe (a b : ErrorPattern) : Prop := a.date ≤ b.date

instance : DecidableRel patternDateLe := fun a b =>
  inferInstanceAs (Decidable (a.date ≤ b.date))

instance : IsTotal ErrorPattern patternDateLe := ⟨fun a b => le_total a.date b.date⟩

instance : IsTrans ErrorPattern patternDateLe := ⟨fun _ _ _ => le_trans⟩

/-- `db.getAllFromIndex('errorPatterns', 'by-date')`. -/
def sortPatternsByDate (l : List ErrorPattern) : List ErrorPattern :=
  List.insertionSort patternDateLe l

/-- `saveErrorPattern` (`storage.ts` lines 229–250).  `newId` models
`uuidv4()` and `now` models `Date.now()`.  After the put, when the
count exceeds 500 the oldest `count - 500` records in `by-date` order
are deleted. -/
def saveErrorPattern (expected typed : String) (position : Int) (newId : String)
    (now : Int) (st : Store) : ErrorPattern × Store :=
  let pattern : ErrorPattern :=
    { id := newId, date := now, expected := expected, typed := typed, position := position }
  let st' : Store := { st with errorPatterns := putPattern pattern st.errorPatterns }
  let count := st'.errorPatterns.length
  if 500 < count then
    let allPatterns := sortPatternsByDate st'.errorPatterns
    let toDelete := allPatterns.take (count - 500)
    (pattern,
     { st' with errorPatterns := toDelete.foldl (fun cur p => deletePattern p.id cur) st'.errorPatterns })
  else
    (pattern, st')

/-- One entry of the `ACHIEVEMENTS` table. -/
structure AchievementDef where
  key : String
  name : String
  description : String
  icon : String
deriving DecidableEq, Inhabited

/-- The `ACHIEVEMENTS` table (`storage.ts` lines 277–288). -/
def ACHIEVEMENTS : List AchievementDef :=
  [ ⟨"first_session", "First Steps", "Complete your first typing session", "🎯"⟩,
    ⟨"speed_demon", "Speed Demon", "Reach 100 WPM", "⚡"⟩,
    ⟨"perfectionist", "Perfectionist", "Achieve 100% accuracy", "💎"⟩,
    ⟨"week_streak", "Dedicated", "Practice for 7 days in a row", "🔥"⟩,
    ⟨"month_streak", "Committed", "Practice for 30 days in a row", "🏆"⟩,
    ⟨"polyglot", "Polyglot", "Practice all available languages", "🌍"⟩,
    ⟨"marathon", "Marathon", "Complete 100 sessions", "🏃"⟩,
    ⟨"early_bird", "Early Bird", "Practice before 8 AM", "🌅"⟩,
    ⟨"night_owl", "Night Owl", "Practice after 10 PM", "🦉"⟩,
    ⟨"hardcore_master", "Hardcore Master", "Complete 10 hardcore sessions", "💀"⟩ ]

/-- `db.get('achievements', key)`: the achievements store has
`keyPath: 'id'`, so the lookup is by the `id` field. -/
def lookupAchievement (k : String) (st : Store) : Option Achievement :=
  st.achievements.find? (fun a => decide (a.id = k))

/-- `unlockAchievement` (`storage.ts` lines 290–302): returns `null`
and leaves the store alone when a record with that key already exists,
otherwise stores `{id: key, key, unlockedAt: Date.now()}` (the `now`
parameter). -/
def unlockAchievement (key : String) (now : Int) (st : Store) : Option Achievement × Store :=
  match lookupAchievement key st with
  | some _ => (none, st)
  | none =>
    let achievement : Achievement := { id := key, key := key, unlockedAt := now }
    (some achievement,
     { st with achievements := putByKey (fun a => a.id) achievement st.achievements })

/-- The cumulative-stats argument of `checkAndUnlockAchievements`. -/
structure AchStats where
  totalSessions : Nat
  currentStreak : Nat
  languages : List String
deriving DecidableEq, Inhabited

/-- One `if (cond) { unlockAchievement(key); if (achievement) unlocked.push(achievement) }`
block of `checkAndUnlockAchievements`, acting on the pair of the store
and the accumulated `unlocked` array. -/
def condUnlock (cond : Bool) (key : String) (now : Int)
    (p : Store × List Achievement) : Store × List Achievement :=
  if cond then
    match unlockAchievement key now p.1 with
    | (some a, st') => (st', p.2 ++ [a])
    | (none, st') => (st', p.2)
  else
    p

/-- `checkAndUnlockAchievements` (`storage.ts` lines 309–354): the
straight-line sequence of conditional unlocks, in source order (the
innermost application runs first).  `hour` models
`new Date().getHours()`. -/
def checkAndUnlockAchievements (session : Session) (stats : AchStats) (hour : Nat)
    (now : Int) (st : Store) : Store × List Achievement :=
  condUnlock (decide (22 ≤ hour)) "night_owl" now
    (condUnlock (decide (hour < 8)) "early_bird" now
      (condUnlock (decide (100 ≤ stats.totalSessions)) "marathon" now
        (condUnlock (decide (30 ≤ stats.currentStreak)) "month_streak" now
          (condUnlock (decide (7 ≤ stats.currentStreak)) "week_streak" now
            (condUnlock (decide (session.accuracy = 100)) "perfectionist" now
              (condUnlock (decide (100 ≤ session.wpm)) "speed_demon" now
                (condUnlock (decide (stats.totalSessions = 1)) "first_session" now
                  (st, []))))))))

/-- `parseInt` restricted to the all-digit components of an ISO date
string (the only inputs the program feeds it). -/
def parseIntNat (s : String) : Nat :=
  (s.toNat?).getD 0

/-- The seed of `getDailyChallenge`:
`today.split('-').reduce((acc, part) => acc + parseInt(part), 0)`. -/
def dailySeed (today : String) : Nat :=
  (today.splitOn "-").foldl (fun acc part => acc + parseIntNat part) 0

/-- `const random = (seed * 9301 + 49297) % 233280`. -/
def dailyRandom (today : String) : Nat :=
  (dailySeed today * 9301 + 49297) % 233280

/-- The `challenges` array literal of `getDailyChallenge`
(`storage.ts` lines 372–376). -/
def challengeTemplates (today : String) (random : Nat) : List DailyChallenge :=
  [ { date := today, type := ChallengeType.speed, target := 60 + random % 40,
      language := none, completed := false },
    { date := today, type := ChallengeType.accuracy, target := 95 + random % 5,
      language := none, completed := false },
    { date := today, type := ChallengeType.language, target := 1,
      language := some (["javascript", "python", "typescript", "rust"].getD (random % 4) ""),
      completed := false } ]

/-- `getDailyChallenge` (`storage.ts` lines 364–379), as a function of
the ISO date string `today`.  The code also computes
`const type = types[random % 3]` but never uses it; the returned
element is `challenges[random % challenges.length]`, always in bounds
(the `getD` default is unreachable). -/
def getDailyChallenge (today : String) : DailyChallenge :=
  let random := dailyRandom today
  let challenges := challengeTemplates today random
  challenges.getD (random % challenges.length)
    { date := today, type := ChallengeType.speed, target := 0, language := none,
      completed := false }

/-- `db.get('settings', k)`. -/
def getSettingRec (k : String) (st : Store) : Option Setting :=
  st.settings.find? (fun s => decide (s.key = k))

/-- `db.put('settings', v)` (`keyPath: 'key'`). -/
def putSetting (v : Setting) (st : Store) : Store :=
  { st with settings := putByKey (fun s => s.key) v st.settings }

/-- The fall-through tail of `getTodayChallenge`: generate today's
challenge (`newChallenge`), store it under the `dailyChallenge`
settings key, return it. -/
def freshDailyChallenge (today : String) (st : Store) : DailyChallenge × Store :=
  (getDailyChallenge today,
   putSetting { key := "dailyChallenge", value := SettingValue.obj (getDailyChallenge today) } st)

/-- `getTodayChallenge` (`storage.ts` lines 381–396): return the saved
challenge when one is stored under `dailyChallenge`, is an object, and
carries today's date; otherwise generate, store and return a fresh one. -/
def getTodayChallenge (today : String) (st : Store) : DailyChallenge × Store :=
  match getSettingRec "dailyChallenge" st with
  | some ⟨_, SettingValue.obj c⟩ =>
    if c.date = today then (c, st) else freshDailyChallenge today st
  | some _ => freshDailyChallenge today st
  | none => freshDailyChallenge today st

/-- `completeDailyChallenge` (`storage.ts` lines 398–403). -/
def completeDailyChallenge (challenge : DailyChallenge) (st : Store) : DailyChallenge × Store :=
  let completed := { challenge with completed := true }
  (completed, putSetting { key := "dailyChallenge", value := SettingValue.obj completed } st)

/-- The per-character comparison loop of `calculateStats`
(`App.tsx`): walk the typed input against the snippet, counting
`(correctChars, errors)`.  When the input is longer than the snippet,
`currentSnippet[i]` is `undefined` and the comparison fails, counting
an error. -/
def statsScan : List Char → List Char → Nat × Nat
  | [], _ => (0, 0)
  | _ :: input, [] =>
    let p := statsScan input []
    (p.1, p.2 + 1)
  | c :: input, s :: snippet =>
    let p := statsScan input snippet
    if c = s then (p.1 + 1, p.2) else (p.1, p.2 + 1)

/-- The result of `calculateStats`. -/
structure RunStats where
  wpm : Int
  accuracy : Int
  errors : Nat
deriving DecidableEq, Inhabited

/-- `calculateStats` (`App.tsx`): `timeElapsed` in minutes,
`wordsTyped = input.length / 5`, `wpm = Math.round(wordsTyped / timeElapsed) || 0`,
accuracy from the per-character scan with `|| 100` mapping the
`NaN` (empty input) and `0` cases to 100.  `now` models `Date.now()`.
Arithmetic is exact over `ℚ`; `round` matches `Math.round`.  When
`timeElapsed ≤ 0` with nonempty input, JS would produce `Infinity`,
which has no integer model; the function is only called with a start
time in the past, and the theorems assume `0 < now - start`. -/
def calculateStats (input snippet : List Char) (start now : Int) : RunStats :=
  let timeElapsed : ℚ := (((now - start : Int) : ℚ) / 1000) / 60
  let wordsTyped : ℚ := (input.length : ℚ) / 5
  let wpm : Int := if timeElapsed ≤ 0 then 0 else round (wordsTyped / timeElapsed)
  let scanned := statsScan input snippet
  let acc : Int := round (((scanned.1 : ℚ) / (input.length : ℚ)) * 100)
  let accuracy : Int := if input.length = 0 then 100 else if acc = 0 then 100 else acc
  { wpm := wpm, accuracy := accuracy, errors := scanned.2 }

/-- A family of pairwise-distinct record ids (`i` letters `a`), used to
build concrete stores for evaluation. -/
def aId (i : Nat) : String :=
  String.mk (List.replicate i 'a')

/-- A concrete session with id `aId i` and date `i`. -/
def demoSession (i : Nat) : Session :=
  { id := aId i, date := (i : Int), language := "javascript", difficulty := "easy",
    wpm := 50, accuracy := 95, errors := 1, duration := 60, charactersTyped := 120,
    theme := "emerald" }

/-- `n` concrete sessions with distinct ids and increasing dates. -/
def demoSessions (n : Nat) : List Session :=
  (List.range n).map demoSession

/-- A concrete error pattern with id `aId i` and date `i`. -/
def demoPattern (i : Nat) : ErrorPattern :=
  { id := aId i, date := (i : Int), expected := "a", typed := "b", position := 0 }

/-- `n` concrete error patterns with distinct ids and increasing dates. -/
def demoPatterns (n : Nat) : List ErrorPattern :=
  (List.range n).map demoPattern

/-- A store holding exactly `MAX_SESSIONS` sessions and 500 error
patterns: the next save overflows both caps. -/
def demoStoreFull : Store :=
  { sessions := demoSessions 1000, settings := [], errorPatterns := demoPatterns 500,
    achievements := [] }

/-- A store holding exactly `MAX_SESSIONS` sessions and nothing else:
only the session store overflows on the next save. -/
def demoStoreSessionsOnly : Store :=
  { emptyStore with sessions := demoSessions 1000 }

/-- A store holding exactly 500 error patterns and nothing else: only
the pattern store overflows on the next save. -/
def demoStorePatternsOnly : Store :=
  { emptyStore with errorPatterns := demoPatterns 500 }

/-- A store with one session dated at local midnight of day 0. -/
def demoStoreOneToday : Store :=
  { emptyStore with sessions := [demoSession 0] }

/-- A store with two sessions. -/
def demoStoreTwo : Store :=
  { emptyStore with sessions := demoSessions 2 }

/-- A concrete stored daily challenge. -/
def demoChallenge : DailyChallenge :=
  { date := "2026-01-01", type := ChallengeType.speed, target := 60, language := none,
    completed := false }

/-- A store whose `dailyChallenge` setting holds `demoChallenge`. -/
def demoStoreChallenge : Store :=
  { emptyStore with settings := [⟨"dailyChallenge", SettingValue.obj demoChallenge⟩] }

/-- A store in which `speed_demon` is already unlocked. -/
def demoStoreSpeedDemon : Store :=
  { emptyStore with achievements := [⟨"speed_demon", 5, "speed_demon"⟩] }

/-! ## Theorems -/

/-- C10: `clearHistory` empties the `sessions` store and leaves the
`errorPatterns`, `achievements` and `settings` stores untouched. -/
theorem clearHistory_clears_only_sessions (st : Store) :
    (clearHistory st).sessions = []
      ∧ (clearHistory st).errorPatterns = st.errorPatterns
      ∧ (clearHistory st).achievements = st.achievements
      ∧ (clearHistory st).settings = st.settings :=
  ⟨rfl, rfl, rfl, rfl⟩

/-- C8: for a run with positive elapsed time, the WPM reported by
`calculateStats` is (characters typed / 5) divided by the minutes
elapsed, rounded to the nearest integer (`round x = ⌊x + 1/2⌋`,
exactly JS `Math.round`). -/
theorem calculateStats_wpm_formula (input snippet : List Char) (start now : Int)
    (h : 0 < now - start) :
    (calculateStats input snippet start now).wpm
      = round (((input.length : ℚ) / 5) / (((now - start : Int) : ℚ) / 60000)) := by
  have hq : (0 : ℚ) < ((now - start : Int) : ℚ) := by exact_mod_cast h
  have hpos : (0 : ℚ) < (((now - start : Int) : ℚ) / 1000) / 60 := by
    apply div_pos (div_pos hq (by norm_num)) (by norm_num)
  simp only [calculateStats, not_le.mpr hpos, if_false]
  congr 2
  rw [div_div]
  norm_num

/-- Witness for C8: a 300-character snippet typed in 60 seconds. -/
theorem calculateStats_wpm_formula_witness :
    (0 : Int) < 60000 - 0
      ∧ (calculateStats (List.replicate 300 'a') (List.replicate 300 'a') 0 60000).wpm
          = round ((((List.replicate 300 'a').length : ℚ) / 5) / (((60000 - 0 : Int) : ℚ) / 60000)) :=
  ⟨by decide, calculateStats_wpm_formula (List.replicate 300 'a') (List.replicate 300 'a') 0 60000
    (by decide)⟩

/-- C7: `getDailyChallenge` is a deterministic function of the ISO date
string alone; its pseudo-random index is
`(seed * 9301 + 49297) % 233280` with `seed` the sum of the parsed date
components, it returns one of the three templates (speed / accuracy /
language) selected by `random % 3`, and the returned challenge carries
the given date. -/
theorem getDailyChallenge_deterministic_formula (d : String) :
    getDailyChallenge d = getDailyChallenge d
      ∧ getDailyChallenge d ∈ challengeTemplates d (dailyRandom d)
      ∧ (getDailyChallenge d).date = d
      ∧ (getDailyChallenge d).type
          = [ChallengeType.speed, ChallengeType.accuracy, ChallengeType.language].getD
              (dailyRandom d % 3) ChallengeType.speed := by
  have h3 : dailyRandom d % 3 = 0 ∨ dailyRandom d % 3 = 1 ∨ dailyRandom d % 3 = 2 := by omega
  refine ⟨rfl, ?_, ?_, ?_⟩
  · rcases h3 with h | h | h <;>
      simp [getDailyChallenge, challengeTemplates, h]
  · rcases h3 with h | h | h <;>
      simp [getDailyChallenge, challengeTemplates, h]
  · rcases h3 with h | h | h <;>
      simp [getDailyChallenge, challengeTemplates, h]

/-- Once the loop index is positive, the streak loop adds exactly the
length of the consecutive run of session days starting there. -/
theorem streakGo_eq_consecRun (hasDay : Nat → Bool) :
    ∀ (fuel i s : Nat), 0 < i → streakGo hasDay fuel i s = s + consecRun hasDay i fuel := by
  intro fuel
  induction fuel with
  | zero => intro i s _; simp [streakGo, consecRun]
  | succ n ih =>
    intro i s hi
    by_cases h : hasDay i
    · rw [streakGo, if_pos h, ih (i + 1) (s + 1) (by omega), consecRun, if_pos h]
      omega
    · rw [streakGo, if_neg h, if_pos hi, consecRun, if_neg h]
      omega

/-- The full streak loop: day 0 contributes a unit without breaking on
a gap, then the consecutive run starting at day 1 is added. -/
theorem streakGo_closed_form (hasDay : Nat → Bool) :
    streakGo hasDay 365 0 0 = (if hasDay 0 then 1 else 0) + consecRun hasDay 1 364 := by
  by_cases h : hasDay 0
  · rw [show (365 : Nat) = 364 + 1 from rfl, streakGo, if_pos h,
      streakGo_eq_consecRun hasDay 364 1 1 (by omega), if_pos h]
  · rw [show (365 : Nat) = 364 + 1 from rfl, streakGo, if_neg h, if_neg (by omega),
      streakGo_eq_consecRun hasDay 364 1 0 (by omega), if_neg h]

/-- The consecutive run starting at day `i` has length `m` exactly when
days `i, …, i+m-1` have sessions and day `i+m` (if still scanned) does
not. -/
theorem consecRun_eq_of_run (hasDay : Nat → Bool) :
    ∀ (fuel i m : Nat), m ≤ fuel →
      (∀ j, j < m → hasDay (i + j) = true) →
      (m < fuel → hasDay (i + m) = false) →
      consecRun hasDay i fuel = m := by
  intro fuel
  induction fuel with
  | zero => intro i m hm _ _; interval_cases m; simp [consecRun]
  | succ n ih =>
    intro i m hm hall hgap
    cases m with
    | zero =>
      have h0 : hasDay i = false := by simpa using hgap (by omega)
      simp [consecRun, h0]
    | succ m' =>
      have h0 : hasDay i = true := by simpa using hall 0 (by omega)
      rw [consecRun, if_pos h0,
        ih (i + 1) m' (by omega)
          (fun j hj => by
            have := hall (j + 1) (by omega)
            rwa [show i + (j + 1) = i + 1 + j by omega] at this)
          (fun hlt => by
            have := hgap (by omega)
            rwa [show i + (m' + 1) = i + 1 + m' by omega] at this)]
      omega

/-- `Array.prototype.some` over a sorted copy agrees with the
underlying list: the day-membership test is permutation-invariant. -/
theorem hasSessionOnDay_insertionSort (r : Session → Session → Prop) [DecidableRel r]
    (l : List Session) (dayStart : Int) :
    hasSessionOnDay (List.insertionSort r l) dayStart = hasSessionOnDay l dayStart := by
  simp only [hasSessionOnDay]
  by_cases h : l.any
      (fun s => decide (dayStart ≤ s.date ∧ s.date < dayStart + MS_PER_DAY)) = true
  · rw [h]
    rw [List.any_eq_true] at h ⊢
    obtain ⟨x, hx, hpx⟩ := h
    exact ⟨x, (List.perm_insertionSort r l).mem_iff.mpr hx, hpx⟩
  · rw [Bool.not_eq_true] at h
    rw [h]
    rw [List.any_eq_false] at h ⊢
    intro x hx
    exact h x ((List.perm_insertionSort r l).mem_iff.mp hx)

/-- The `currentStreak` field of `getStats` is the streak loop over the
day-membership test, for a nonempty store. -/
theorem getStats_currentStreak_eq (today : Int) (st : Store)
    (hne : st.sessions.length ≠ 0) :
    (getStats today st).currentStreak = streakGo (hasDayB st today) 365 0 0 := by
  rw [getStats]
  simp only [if_neg hne]
  congr 1
  funext i
  exact hasSessionOnDay_insertionSort byDateGe st.sessions (today - (i : Int) * MS_PER_DAY)

/-- C1: `getStats` returns as `currentStreak` the number of consecutive
calendar days with at least one session scanning backward from today,
capped at 365 and breaking at the first gap after day 0: day 0
contributes exactly when it has a session and then the consecutive run
starting yesterday is added; in particular the streak is 0 when none of
the last 365 days has a session, `N` when exactly the trailing days
`0, …, N-1` have sessions, and 365 when all scanned days do. -/
theorem getStats_currentStreak_spec (today : Int) (st : Store) :
    ((st.sessions.length ≠ 0 →
        (getStats today st).currentStreak
          = (if hasDayB st today 0 then 1 else 0) + consecRun (hasDayB st today) 1 364)
      ∧ ((∀ i, i < 365 → hasDayB st today i = false) →
          (getStats today st).currentStreak = 0)
      ∧ (∀ N, 0 < N → N < 365 →
          (∀ i, i < N → hasDayB st today i = true) →
          hasDayB st today N = false →
          (getStats today st).currentStreak = N)
      ∧ ((∀ i, i < 365 → hasDayB st today i = true) →
          (getStats today st).currentStreak = 365)) := by
  have hempty : st.sessions.length = 0 → ∀ i, hasDayB st today i = false := by
    intro h i
    rw [List.length_eq_zero] at h
    simp [hasDayB, hasSessionOnDay, h]
  refine ⟨?_, ?_, ?_, ?_⟩
  · intro hne
    rw [getStats_currentStreak_eq today st hne, streakGo_closed_form]
  · intro hall
    by_cases hne : st.sessions.length = 0
    · simp [getStats, hne]
    · rw [getStats_currentStreak_eq today st hne, streakGo_closed_form,
        if_neg (by simp [hall 0 (by omega)]),
        consecRun_eq_of_run (hasDayB st today) 364 1 0 (by omega)
          (fun j hj => absurd hj (Nat.not_lt_zero j))
          (fun _ => by simpa using hall 1 (by omega))]
  · intro N hN0 hN hall hgap
    have hne : st.sessions.length ≠ 0 := by
      intro h
      have := hempty h 0
      rw [hall 0 hN0] at this
      simp at this
    rw [getStats_currentStreak_eq today st hne, streakGo_closed_form,
      if_pos (hall 0 hN0),
      consecRun_eq_of_run (hasDayB st today) 364 1 (N - 1) (by omega)
        (fun j hj => hall (1 + j) (by omega))
        (fun _ => by
          have := hgap
          rwa [show N = 1 + (N - 1) by omega] at this)]
    omega
  · intro hall
    have hne : st.sessions.length ≠ 0 := by
      intro h
      have := hempty h 0
      rw [hall 0 (by omega)] at this
      simp at this
    rw [getStats_currentStreak_eq today st hne, streakGo_closed_form,
      if_pos (hall 0 (by omega)),
      consecRun_eq_of_run (hasDayB st today) 364 1 364 (by omega)
        (fun j hj => hall (1 + j) (by omega))
        (fun h => absurd h (by omega))]

/-- Witness for C1: a store with a single session at midnight of day 0
has a current streak of exactly 1. -/
theorem getStats_currentStreak_spec_witness :
    (getStats 0 demoStoreOneToday).currentStreak = 1 :=
  (getStats_currentStreak_spec 0 demoStoreOneToday).2.2.1 1 (by decide) (by decide)
    (by decide) (by decide)

/-- After replacing all key-matches of `v`, searching for `v`'s key
finds `v`, provided some match existed. -/
theorem find?_map_replace {α : Type} (key : α → String) (v : α) :
    ∀ l : List α, l.any (fun x => decide (key x = key v)) = true →
      (l.map (fun x => if key x = key v then v else x)).find?
          (fun x => decide (key x = key v)) = some v := by
  intro l
  induction l with
  | nil => simp
  | cons a l ih =>
    intro hany
    by_cases ha : key a = key v
    · simp [List.find?_cons, ha]
    · have hl : l.any (fun x => decide (key x = key v)) = true := by
        simpa [ha] using hany
      simpa [List.find?_cons, ha] using ih hl

/-- Searching a fresh append for the appended record's key finds it. -/
theorem find?_append_self {α : Type} (key : α → String) (v : α) :
    ∀ l : List α, l.any (fun x => decide (key x = key v)) = false →
      (l ++ [v]).find? (fun x => decide (key x = key v)) = some v := by
  intro l hl
  rw [List.find?_append]
  have h1 : l.find? (fun x => decide (key x = key v)) = none := by
    rw [List.find?_eq_none]
    intro x hx
    rw [List.any_eq_false] at hl
    exact hl x hx
  simp [h1, List.find?_cons]

/-- `db.get` after `db.put` of the same key returns the stored record. -/
theorem find?_putByKey_self {α : Type} (key : α → String) (v : α) (l : List α) :
    (putByKey key v l).find? (fun x => decide (key x = key v)) = some v := by
  rw [putByKey]
  cases hany : l.any (fun x => decide (key x = key v)) with
  | true => simpa using find?_map_replace key v l hany
  | false => simpa using find?_append_self key v l hany

/-- Variant of `find?_putByKey_self` with the searched key given
explicitly. -/
theorem find?_putByKey_self_key {α : Type} (key : α → String) (v : α) (k : String)
    (hk : key v = k) (l : List α) :
    (putByKey key v l).find? (fun x => decide (key x = k)) = some v := by
  subst hk
  exact find?_putByKey_self key v l

/-- Replacing the key-matches of `v` does not change a search for a
different key. -/
theorem find?_map_replace_ne {α : Type} (key : α → String) (v : α) (k : String)
    (hk : key v ≠ k) :
    ∀ l : List α,
      (l.map (fun x => if key x = key v then v else x)).find? (fun x => decide (key x = k))
        = l.find? (fun x => decide (key x = k)) := by
  intro l
  induction l with
  | nil => simp
  | cons a l ih =>
    by_cases ha : key a = key v
    · have hak : ¬ key a = k := by rw [ha]; exact hk
      simp [List.find?_cons, ha, hk, hak, ih]
    · by_cases hq : key a = k
      · have hkv : ¬ k = key v := fun h => hk h.symm
        simp [List.find?_cons, ha, hq, hkv]
      · simp [List.find?_cons, ha, hq, ih]

/-- `db.get` of a different key is unaffected by a `db.put`. -/
theorem find?_putByKey_ne {α : Type} (key : α → String) (v : α) (l : List α) (k : String)
    (hk : key v ≠ k) :
    (putByKey key v l).find? (fun x => decide (key x = k))
      = l.find? (fun x => decide (key x = k)) := by
  rw [putByKey]
  cases hany : l.any (fun x => decide (key x = key v)) with
  | true =>
    simpa [hany] using find?_map_replace_ne key v k hk l
  | false =>
    simp only [hany, Bool.false_eq_true, if_false, List.find?_append]
    have h1 : [v].find? (fun x => decide (key x = k)) = none := by
      simp [List.find?_cons, hk]
    simp [h1]

/-- Every daily challenge generated for a date carries that date. -/
theorem getDailyChallenge_date (d : String) : (getDailyChallenge d).date = d := by
  have h3 : dailyRandom d % 3 = 0 ∨ dailyRandom d % 3 = 1 ∨ dailyRandom d % 3 = 2 := by omega
  rcases h3 with h | h | h <;> simp [getDailyChallenge, challengeTemplates, h]

/-- After the generate-and-store tail of `getTodayChallenge`, the
`dailyChallenge` setting holds exactly the returned challenge, which
carries today's date. -/
theorem freshDailyChallenge_post (today : String) (st : Store) :
    getSettingRec "dailyChallenge" (freshDailyChallenge today st).2
        = some ⟨"dailyChallenge", SettingValue.obj (freshDailyChallenge today st).1⟩
      ∧ (freshDailyChallenge today st).1.date = today := by
  constructor
  · simp only [freshDailyChallenge, getSettingRec, putSetting]
    exact find?_putByKey_self_key (fun s => s.key)
      ⟨"dailyChallenge", SettingValue.obj (getDailyChallenge today)⟩ "dailyChallenge" rfl
      st.settings
  · simp only [freshDailyChallenge]
    exact getDailyChallenge_date today

/-- When today's challenge is already stored, `getTodayChallenge`
returns it and leaves the store untouched. -/
theorem getTodayChallenge_of_stored (today : String) (st : Store) (c : DailyChallenge)
    (h : getSettingRec "dailyChallenge" st = some ⟨"dailyChallenge", SettingValue.obj c⟩)
    (hd : c.date = today) :
    getTodayChallenge today st = (c, st) := by
  rw [getTodayChallenge, h]
  simp [hd]

/-- After any call of `getTodayChallenge`, the `dailyChallenge` setting
holds exactly the returned challenge, and that challenge carries
today's date. -/
theorem getTodayChallenge_post (today : String) (st : Store) :
    getSettingRec "dailyChallenge" (getTodayChallenge today st).2
        = some ⟨"dailyChallenge", SettingValue.obj (getTodayChallenge today st).1⟩
      ∧ (getTodayChallenge today st).1.date = today := by
  cases hfind : getSettingRec "dailyChallenge" st with
  | none =>
    have hfr : getTodayChallenge today st = freshDailyChallenge today st := by
      rw [getTodayChallenge, hfind]
    rw [hfr]
    exact freshDailyChallenge_post today st
  | some s =>
    obtain ⟨k, val⟩ := s
    have hk : k = "dailyChallenge" := by
      have h1 := List.find?_some hfind
      simpa using h1
    subst hk
    cases val with
    | obj c =>
      by_cases hd : c.date = today
      · rw [getTodayChallenge_of_stored today st c hfind hd]
        exact ⟨hfind, hd⟩
      · have hfr : getTodayChallenge today st = freshDailyChallenge today st := by
          rw [getTodayChallenge, hfind]
          simp [hd]
        rw [hfr]
        exact freshDailyChallenge_post today st
    | str s =>
      have hfr : getTodayChallenge today st = freshDailyChallenge today st := by
        rw [getTodayChallenge, hfind]
      rw [hfr]
      exact freshDailyChallenge_post today st
    | num n =>
      have hfr : getTodayChallenge today st = freshDailyChallenge today st := by
        rw [getTodayChallenge, hfind]
      rw [hfr]
      exact freshDailyChallenge_post today st
    | bool b =>
      have hfr : getTodayChallenge today st = freshDailyChallenge today st := by
        rw [getTodayChallenge, hfind]
      rw [hfr]
      exact freshDailyChallenge_post today st

/-- C6: `getTodayChallenge` is stable within a calendar day: a second
call on the same date returns exactly the pair produced by the first
call (same challenge, unchanged store); a store already holding today's
challenge is returned as-is; and `completeDailyChallenge` changes the
stored challenge only by setting its `completed` flag. -/
theorem getTodayChallenge_same_day_stable (today : String) (st : Store) :
    getTodayChallenge today ((getTodayChallenge today st).2) = getTodayChallenge today st
      ∧ (∀ c, getSettingRec "dailyChallenge" st
            = some ⟨"dailyChallenge", SettingValue.obj c⟩ →
          c.date = today → getTodayChallenge today st = (c, st))
      ∧ (∀ c st', completeDailyChallenge c st'
            = ({ c with completed := true },
               putSetting ⟨"dailyChallenge", SettingValue.obj { c with completed := true }⟩ st')) := by
  refine ⟨?_, ?_, ?_⟩
  · have hpost := getTodayChallenge_post today st
    rw [getTodayChallenge_of_stored today (getTodayChallenge today st).2
      (getTodayChallenge today st).1 hpost.1 hpost.2]
  · intro c h hd
    exact getTodayChallenge_of_stored today st c h hd
  · intro c st'
    rfl

/-- Witness for C6: a store already holding a challenge dated
`2026-01-01` returns it unchanged on that date. -/
theorem getTodayChallenge_same_day_stable_witness :
    getTodayChallenge "2026-01-01" demoStoreChallenge = (demoChallenge, demoStoreChallenge) :=
  (getTodayChallenge_same_day_stable "2026-01-01" demoStoreChallenge).2.1 demoChallenge
    (by decide) (by decide)

/-- `unlockAchievement` on an already-unlocked key returns `null` and
leaves the store untouched. -/
theorem unlockAchievement_of_present (k : String) (now : Int) (st : Store)
    (h : lookupAchievement k st ≠ none) :
    unlockAchievement k now st = (none, st) := by
  rw [unlockAchievement]
  cases hl : lookupAchievement k st with
  | none => exact absurd hl h
  | some a => rfl

/-- `unlockAchievement` on a fresh key stores and returns the new
record. -/
theorem unlockAchievement_of_absent (k : String) (now : Int) (st : Store)
    (h : lookupAchievement k st = none) :
    unlockAchievement k now st
      = (some ⟨k, now, k⟩,
         { st with achievements := putByKey (fun a => a.id) ⟨k, now, k⟩ st.achievements }) := by
  rw [unlockAchievement, h]

/-- Looking up the id just stored by an achievement put finds the new
record. -/
theorem lookupAchievement_put_self (a : Achievement) (k : String) (hk : a.id = k) (st : Store) :
    lookupAchievement k { st with achievements := putByKey (fun x => x.id) a st.achievements }
      = some a := by
  simp only [lookupAchievement]
  exact find?_putByKey_self_key (fun x => x.id) a k hk st.achievements

/-- An achievement put does not disturb lookups of other ids. -/
theorem lookupAchievement_put_ne (a : Achievement) (k : String) (hk : a.id ≠ k) (st : Store) :
    lookupAchievement k { st with achievements := putByKey (fun x => x.id) a st.achievements }
      = lookupAchievement k st := by
  simp only [lookupAchievement]
  exact find?_putByKey_ne (fun x => x.id) a st.achievements k hk

/-- A conditional-unlock step with a false condition is a no-op. -/
theorem condUnlock_false (k : String) (now : Int) (p : Store × List Achievement) :
    condUnlock false k now p = p := rfl

/-- A conditional-unlock step whose key is already stored is a no-op. -/
theorem condUnlock_true_present (k : String) (now : Int) (p : Store × List Achievement)
    (h : lookupAchievement k p.1 ≠ none) :
    condUnlock true k now p = p := by
  rw [condUnlock, unlockAchievement_of_present k now p.1 h]
  simp

/-- A conditional-unlock step whose key is absent stores the new record
and appends it to the unlocked list. -/
theorem condUnlock_true_absent (k : String) (now : Int) (p : Store × List Achievement)
    (h : lookupAchievement k p.1 = none) :
    condUnlock true k now p
      = ({ p.1 with achievements := putByKey (fun a => a.id) ⟨k, now, k⟩ p.1.achievements },
         p.2 ++ [⟨k, now, k⟩]) := by
  rw [condUnlock, unlockAchievement_of_absent k now p.1 h]
  simp

/-- A conditional-unlock step for key `k` neither adds nor removes a
different key `k'`, in the unlocked list as well as in the store. -/
theorem condUnlock_ne (c : Bool) (k : String) (now : Int) (p : Store × List Achievement)
    (k' : String) (hne : k' ≠ k) :
    ((k' ∈ (condUnlock c k now p).2.map (fun a => a.key))
        ↔ k' ∈ p.2.map (fun a => a.key))
      ∧ lookupAchievement k' (condUnlock c k now p).1 = lookupAchievement k' p.1 := by
  cases c with
  | false => rw [condUnlock_false]; exact ⟨Iff.rfl, rfl⟩
  | true =>
    by_cases hl : lookupAchievement k p.1 = none
    · rw [condUnlock_true_absent k now p hl]
      constructor
      · simp [hne]
      · exact lookupAchievement_put_ne ⟨k, now, k⟩ k' (by simpa using fun h => hne h.symm) p.1
    · rw [condUnlock_true_present k now p hl]
      exact ⟨Iff.rfl, rfl⟩

/-- A conditional-unlock step for key `k` puts `k` into the unlocked
list exactly when its condition holds and `k` is not yet in the store
(provided `k` was not already in the accumulated list). -/
theorem condUnlock_self (c : Bool) (k : String) (now : Int) (p : Store × List Achievement)
    (hnotin : k ∉ p.2.map (fun a => a.key)) :
    ((k ∈ (condUnlock c k now p).2.map (fun a => a.key))
        ↔ (c = true ∧ lookupAchievement k p.1 = none)) := by
  cases c with
  | false => rw [condUnlock_false]; simpa using hnotin
  | true =>
    by_cases hl : lookupAchievement k p.1 = none
    · rw [condUnlock_true_absent k now p hl]
      simp [hl]
    · rw [condUnlock_true_present k now p hl]
      simpa [hl] using hnotin

/-- A conditional-unlock step preserves the invariant that every key of
the unlocked list is present in the achievements store. -/
theorem condUnlock_inv (c : Bool) (k : String) (now : Int) (p : Store × List Achievement)
    (hinv : ∀ k', k' ∈ p.2.map (fun a => a.key) → lookupAchievement k' p.1 ≠ none) :
    ∀ k', k' ∈ (condUnlock c k now p).2.map (fun a => a.key) →
      lookupAchievement k' (condUnlock c k now p).1 ≠ none := by
  cases c with
  | false => rw [condUnlock_false]; exact hinv
  | true =>
    by_cases hl : lookupAchievement k p.1 = none
    · rw [condUnlock_true_absent k now p hl]
      intro k' hk'
      by_cases hkk : k' = k
      · subst hkk
        rw [lookupAchievement_put_self ⟨k', now, k'⟩ k' rfl p.1]
        simp
      · rw [lookupAchievement_put_ne ⟨k, now, k⟩ k' (by simpa using fun h => hkk h.symm) p.1]
        apply hinv
        simp only [List.map_append] at hk'
        rcases List.mem_append.mp hk' with h1 | h1
        · exact h1
        · exact absurd (by simpa using h1) hkk
    · rw [condUnlock_true_present k now p hl]
      exact hinv

/-- Every achievement produced by a conditional-unlock step either was
already accumulated or carries that step's key. -/
theorem condUnlock_keys_mem (c : Bool) (k : String) (now : Int)
    (p : Store × List Achievement) (a : Achievement)
    (ha : a ∈ (condUnlock c k now p).2) :
    a ∈ p.2 ∨ a.key = k := by
  cases c with
  | false => rw [condUnlock_false] at ha; exact Or.inl ha
  | true =>
    by_cases hl : lookupAchievement k p.1 = none
    · rw [condUnlock_true_absent k now p hl] at ha
      rcases List.mem_append.mp ha with h1 | h1
      · exact Or.inl h1
      · right
        have h2 : a = ⟨k, now, k⟩ := by simpa using h1
        rw [h2]
    · rw [condUnlock_true_present k now p hl] at ha
      exact Or.inl ha

/-- `speed_demon` lands in the unlocked list of a check exactly when
the saved session reaches 100 WPM and the key is not already stored. -/
theorem speed_demon_mem_iff (session : Session) (stats : AchStats) (hour : Nat) (now : Int)
    (st : Store) :
    ("speed_demon" ∈ (checkAndUnlockAchievements session stats hour now st).2.map
        (fun a => a.key))
      ↔ (100 ≤ session.wpm ∧ lookupAchievement "speed_demon" st = none) := by
  rw [checkAndUnlockAchievements]
  set p0 : Store × List Achievement := (st, []) with hp0
  set p1 := condUnlock (decide (stats.totalSessions = 1)) "first_session" now p0 with hp1
  set p2 := condUnlock (decide (100 ≤ session.wpm)) "speed_demon" now p1 with hp2
  set p3 := condUnlock (decide (session.accuracy = 100)) "perfectionist" now p2 with hp3
  set p4 := condUnlock (decide (7 ≤ stats.currentStreak)) "week_streak" now p3 with hp4
  set p5 := condUnlock (decide (30 ≤ stats.currentStreak)) "month_streak" now p4 with hp5
  set p6 := condUnlock (decide (100 ≤ stats.totalSessions)) "marathon" now p5 with hp6
  set p7 := condUnlock (decide (hour < 8)) "early_bird" now p6 with hp7
  have h1 := condUnlock_ne (decide (stats.totalSessions = 1)) "first_session" now p0
    "speed_demon" (by decide)
  have hnotin : "speed_demon" ∉ p1.2.map (fun a => a.key) := by
    intro hmem
    have := h1.1.mp hmem
    rw [hp0] at this
    simp at this
  have h2 := condUnlock_self (decide (100 ≤ session.wpm)) "speed_demon" now p1 hnotin
  have h3 := condUnlock_ne (decide (session.accuracy = 100)) "perfectionist" now p2
    "speed_demon" (by decide)
  have h4 := condUnlock_ne (decide (7 ≤ stats.currentStreak)) "week_streak" now p3
    "speed_demon" (by decide)
  have h5 := condUnlock_ne (decide (30 ≤ stats.currentStreak)) "month_streak" now p4
    "speed_demon" (by decide)
  have h6 := condUnlock_ne (decide (100 ≤ stats.totalSessions)) "marathon" now p5
    "speed_demon" (by decide)
  have h7 := condUnlock_ne (decide (hour < 8)) "early_bird" now p6 "speed_demon" (by decide)
  have h8 := condUnlock_ne (decide (22 ≤ hour)) "night_owl" now p7 "speed_demon" (by decide)
  rw [h8.1, h7.1, h6.1, h5.1, h4.1, h3.1, h2, h1.2]
  rw [hp0]
  simp [decide_eq_true_iff]

/-- Every key in the unlocked list of a check is present in the
resulting achievements store. -/
theorem checkAndUnlock_inv (session : Session) (stats : AchStats) (hour : Nat) (now : Int)
    (st : Store) :
    ∀ k', k' ∈ (checkAndUnlockAchievements session stats hour now st).2.map (fun a => a.key) →
      lookupAchievement k' (checkAndUnlockAchievements session stats hour now st).1 ≠ none := by
  rw [checkAndUnlockAchievements]
  apply condUnlock_inv
  apply condUnlock_inv
  apply condUnlock_inv
  apply condUnlock_inv
  apply condUnlock_inv
  apply condUnlock_inv
  apply condUnlock_inv
  apply condUnlock_inv
  intro k' hk'
  simp at hk'

/-- C5: `speed_demon` unlocks from a checked session exactly when that
session's WPM is at least 100 and the achievement is not yet stored;
`unlockAchievement` refuses re-unlocks (`null`, store unchanged); and a
second check after one that unlocked `speed_demon` can never unlock it
again. -/
theorem checkAndUnlock_speed_demon (session : Session) (stats : AchStats) (hour : Nat)
    (now : Int) (st : Store) :
    (("speed_demon" ∈ (checkAndUnlockAchievements session stats hour now st).2.map
          (fun a => a.key))
        ↔ (100 ≤ session.wpm ∧ lookupAchievement "speed_demon" st = none))
      ∧ (∀ (k : String) (now' : Int) (st' : Store),
          lookupAchievement k st' ≠ none → unlockAchievement k now' st' = (none, st'))
      ∧ ("speed_demon" ∈ (checkAndUnlockAchievements session stats hour now st).2.map
            (fun a => a.key) →
          "speed_demon" ∉ (checkAndUnlockAchievements session stats hour now
              (checkAndUnlockAchievements session stats hour now st).1).2.map
            (fun a => a.key)) := by
  refine ⟨speed_demon_mem_iff session stats hour now st, ?_, ?_⟩
  · intro k now' st' h
    exact unlockAchievement_of_present k now' st' h
  · intro hmem hmem2
    have hlook := checkAndUnlock_inv session stats hour now st "speed_demon" hmem
    have h2 := (speed_demon_mem_iff session stats hour now
      (checkAndUnlockAchievements session stats hour now st).1).mp hmem2
    exact hlook h2.2

/-- Witness for C5: re-unlocking an already-stored `speed_demon` is
refused. -/
theorem checkAndUnlock_speed_demon_witness :
    unlockAchievement "speed_demon" 7 demoStoreSpeedDemon = (none, demoStoreSpeedDemon) :=
  (checkAndUnlock_speed_demon (demoSession 0) ⟨1, 1, []⟩ 12 7 demoStoreSpeedDemon).2.1
    "speed_demon" 7 demoStoreSpeedDemon (by decide)

/-- C9: `checkAndUnlockAchievements` only ever unlocks the eight keys
it tests for; although `polyglot` and `hardcore_master` sit in the
`ACHIEVEMENTS` table, no code path unlocks them. -/
theorem checkAndUnlock_keys_subset (session : Session) (stats : AchStats) (hour : Nat)
    (now : Int) (st : Store) :
    (∀ a, a ∈ (checkAndUnlockAchievements session stats hour now st).2 →
        a.key ∈ (["first_session", "speed_demon", "perfectionist", "week_streak",
                  "month_streak", "marathon", "early_bird", "night_owl"] : List String))
      ∧ "polyglot" ∈ ACHIEVEMENTS.map (fun d => d.key)
      ∧ "hardcore_master" ∈ ACHIEVEMENTS.map (fun d => d.key)
      ∧ "polyglot" ∉ (checkAndUnlockAchievements session stats hour now st).2.map
          (fun a => a.key)
      ∧ "hardcore_master" ∉ (checkAndUnlockAchievements session stats hour now st).2.map
          (fun a => a.key) := by
  have hsub : ∀ a, a ∈ (checkAndUnlockAchievements session stats hour now st).2 →
      a.key ∈ (["first_session", "speed_demon", "perfectionist", "week_streak",
                "month_streak", "marathon", "early_bird", "night_owl"] : List String) := by
    intro a ha
    rw [checkAndUnlockAchievements] at ha
    rcases condUnlock_keys_mem _ _ _ _ a ha with ha | hk
    · rcases condUnlock_keys_mem _ _ _ _ a ha with ha | hk
      · rcases condUnlock_keys_mem _ _ _ _ a ha with ha | hk
        · rcases condUnlock_keys_mem _ _ _ _ a ha with ha | hk
          · rcases condUnlock_keys_mem _ _ _ _ a ha with ha | hk
            · rcases condUnlock_keys_mem _ _ _ _ a ha with ha | hk
              · rcases condUnlock_keys_mem _ _ _ _ a ha with ha | hk
                · rcases condUnlock_keys_mem _ _ _ _ a ha with ha | hk
                  · simp at ha
                  · simp [hk]
                · simp [hk]
              · simp [hk]
            · simp [hk]
          · simp [hk]
        · simp [hk]
      · simp [hk]
    · simp [hk]
  refine ⟨hsub, by decide, by decide, ?_, ?_⟩
  · intro h
    rcases List.mem_map.mp h with ⟨a, ha, hk⟩
    have := hsub a ha
    rw [hk] at this
    exact absurd this (by decide)
  · intro h
    rcases List.mem_map.mp h with ⟨a, ha, hk⟩
    have := hsub a ha
    rw [hk] at this
    exact absurd this (by decide)

/-- Witness for C9: the first-session achievement produced by a check
on the empty store carries one of the eight reachable keys. -/
theorem checkAndUnlock_keys_subset_witness :
    (⟨"first_session", 7, "first_session"⟩ : Achievement).key
      ∈ (["first_session", "speed_demon", "perfectionist", "week_streak",
          "month_streak", "marathon", "early_bird", "night_owl"] : List String) :=
  (checkAndUnlock_keys_subset (demoSession 1) ⟨1, 3, []⟩ 12 7 emptyStore).1
    ⟨"first_session", 7, "first_session"⟩ (by decide)

/-- A `db.put` whose key is fresh appends the record. -/
theorem putByKey_of_fresh {α : Type} (key : α → String) (v : α) (l : List α)
    (h : ∀ x ∈ l, key x ≠ key v) :
    putByKey key v l = l ++ [v] := by
  have hany : l.any (fun x => decide (key x = key v)) = false := by
    rw [List.any_eq_false]
    intro x hx
    simpa using h x hx
  rw [putByKey, hany]
  simp

/-- A `db.put` of a record equal to the one already stored under its
key leaves the store unchanged (given duplicate-free keys). -/
theorem putByKey_of_mem_nodup {α : Type} (key : α → String) (v : α) (l : List α)
    (hv : v ∈ l) (hnd : (l.map key).Nodup) :
    putByKey key v l = l := by
  have hany : l.any (fun x => decide (key x = key v)) = true :=
    List.any_eq_true.mpr ⟨v, hv, by simp⟩
  rw [putByKey, hany]
  simp only [if_true]
  have hcong : ∀ x ∈ l, (if key x = key v then v else x) = x := by
    intro x hx
    by_cases h : key x = key v
    · rw [if_pos h]
      exact (List.inj_on_of_nodup_map hnd hx hv h).symm
    · rw [if_neg h]
  rw [List.map_congr_left hcong, List.map_id']

/-- A `db.put` never changes the multiset of stored keys except by
adding the fresh one. -/
theorem putByKey_map_key {α : Type} (key : α → String) (v : α) (l : List α) :
    (putByKey key v l).map key = l.map key
      ∨ (putByKey key v l).map key = l.map key ++ [key v] := by
  rw [putByKey]
  cases hany : l.any (fun x => decide (key x = key v)) with
  | true =>
    left
    simp only [if_true, List.map_map]
    apply List.map_congr_left
    intro x _
    by_cases h : key x = key v
    · simp [h]
    · simp [h]
  | false =>
    right
    simp

/-- A `db.put` preserves duplicate-freedom of the stored keys. -/
theorem putByKey_nodup {α : Type} (key : α → String) (v : α) (l : List α)
    (hnd : (l.map key).Nodup) :
    ((putByKey key v l).map key).Nodup := by
  rw [putByKey]
  cases hany : l.any (fun x => decide (key x = key v)) with
  | true =>
    simp only [if_true, List.map_map]
    have hc : ∀ x ∈ l, (key ∘ fun x => if key x = key v then v else x) x = key x := by
      intro x _
      by_cases h : key x = key v
      · simp [Function.comp, h]
      · simp [Function.comp, h]
    rw [List.map_congr_left hc]
    exact hnd
  | false =>
    simp only [Bool.false_eq_true, if_false, List.map_append]
    rw [List.nodup_append]
    refine ⟨hnd, by simp, ?_⟩
    intro x hx hmem
    have hxv : x = key v := by simpa using hmem
    subst hxv
    rcases List.mem_map.mp hx with ⟨y, hy, hky⟩
    rw [List.any_eq_false] at hany
    exact hany y hy (by simp [hky])

/-- Folding key-deletions over a deletion list filters out exactly the
records whose key appears in that list. -/
theorem foldl_filter_ne {α : Type} (key : α → String) :
    ∀ (ds l : List α),
      ds.foldl (fun cur d => cur.filter (fun x => decide (key x ≠ key d))) l
        = l.filter (fun x => decide (key x ∉ ds.map key)) := by
  intro ds
  induction ds with
  | nil => intro l; simp
  | cons d ds ih =>
    intro l
    rw [List.foldl_cons, ih, List.filter_filter]
    apply List.filter_congr
    intro x _
    simp only [List.map_cons, List.mem_cons, not_or, decide_not]
    by_cases h1 : key x = key d
    · simp [h1]
    · by_cases h2 : key x ∈ ds.map key
      · simp [h1, h2]
      · simp [h1, h2]

/-- Deleting the keys of the first `k` records of a permuted copy `S`
from a duplicate-free record list leaves exactly the records of
`S.drop k`. -/
theorem evict_filter_perm {α : Type} (key : α → String) (l S : List α) (k : Nat)
    (hS : S.Perm l) (hnd : (l.map key).Nodup) :
    (l.filter (fun x => decide (key x ∉ (S.take k).map key))).Perm (S.drop k) := by
  set p : α → Bool := fun x => decide (key x ∉ (S.take k).map key) with hp
  have hfilter : (l.filter p).Perm (S.filter p) := (hS.filter p).symm
  refine hfilter.trans ?_
  have hSnd : (S.map key).Nodup := ((hS.map key).nodup_iff).mpr hnd
  have happ : ((S.take k).map key ++ (S.drop k).map key).Nodup := by
    rw [← List.map_append, List.take_append_drop]
    exact hSnd
  have hdisj := (List.nodup_append.mp happ).2.2
  have htake : (S.take k).filter p = [] := by
    rw [List.filter_eq_nil_iff]
    intro x hx
    simp only [hp, decide_not, Bool.not_eq_true', decide_eq_false_iff_not, not_not]
    exact List.mem_map_of_mem key hx
  have hdrop : (S.drop k).filter p = S.drop k := by
    rw [List.filter_eq_self]
    intro x hx
    simp only [hp, decide_not, Bool.not_eq_true', decide_eq_false_iff_not]
    intro hmem
    exact hdisj hmem (List.mem_map_of_mem key hx)
  have hsplit : S.filter p = (S.take k).filter p ++ (S.drop k).filter p := by
    conv_lhs => rw [← List.take_append_drop k S]
    rw [List.filter_append]
  rw [hsplit, htake, hdrop]
  simp

/-- In a sorted list, every record among the first `k` is related to
every record after them. -/
theorem sorted_take_le_drop {α : Type} (r : α → α → Prop) (S : List α)
    (hs : List.Sorted r S) (k : Nat) :
    ∀ x ∈ S.take k, ∀ y ∈ S.drop k, r x y := by
  have h2 : List.Pairwise r (S.take k ++ S.drop k) := by
    rw [List.take_append_drop]
    exact hs
  exact (List.pairwise_append.mp h2).2.2

/-- The deletion loop of `cleanupOldSessions` as a single filter. -/
theorem foldl_deleteSession (ds l : List Session) :
    ds.foldl (fun cur s => deleteSession s.id cur) l
      = l.filter (fun x => decide (x.id ∉ ds.map (fun s => s.id))) := by
  simp only [deleteSession]
  exact foldl_filter_ne (fun s => s.id) ds l

/-- The deletion loop of `saveErrorPattern` as a single filter. -/
theorem foldl_deletePattern (ds l : List ErrorPattern) :
    ds.foldl (fun cur p => deletePattern p.id cur) l
      = l.filter (fun x => decide (x.id ∉ ds.map (fun p => p.id))) := by
  simp only [deletePattern]
  exact foldl_filter_ne (fun p => p.id) ds l

/-- When the session store overflows its cap, `cleanupOldSessions`
keeps exactly the records after the first `count - MAX_SESSIONS` of the
`by-date` order: the survivors are a permutation of that suffix and
number exactly `MAX_SESSIONS`. -/
theorem cleanupOldSessions_overflow (st : Store)
    (hnd : (st.sessions.map (fun s => s.id)).Nodup)
    (hlen : MAX_SESSIONS < st.sessions.length) :
    ((cleanupOldSessions st).sessions).Perm
        ((sortByDate st.sessions).drop (st.sessions.length - MAX_SESSIONS))
      ∧ (cleanupOldSessions st).sessions.length = MAX_SESSIONS := by
  have hred : (cleanupOldSessions st).sessions
      = ((sortByDate st.sessions).take (st.sessions.length - MAX_SESSIONS)).foldl
          (fun cur s => deleteSession s.id cur) st.sessions := by
    simp only [cleanupOldSessions]
    rw [if_pos hlen]
  have hperm : ((cleanupOldSessions st).sessions).Perm
      ((sortByDate st.sessions).drop (st.sessions.length - MAX_SESSIONS)) := by
    rw [hred, foldl_deleteSession]
    exact evict_filter_perm (fun s => s.id) st.sessions (sortByDate st.sessions)
      (st.sessions.length - MAX_SESSIONS) (List.perm_insertionSort byDateLe st.sessions) hnd
  refine ⟨hperm, ?_⟩
  rw [hperm.length_eq, List.length_drop, sortByDate, List.length_insertionSort]
  omega

/-- When the session store is at or below its cap, `cleanupOldSessions`
is the identity. -/
theorem cleanupOldSessions_of_le (st : Store)
    (hlen : ¬ MAX_SESSIONS < st.sessions.length) :
    cleanupOldSessions st = st := by
  simp only [cleanupOldSessions]
  rw [if_neg hlen]

/-- `cleanupOldSessions` always leaves at most `MAX_SESSIONS` records
in a duplicate-free session store. -/
theorem cleanupOldSessions_le (st : Store)
    (hnd : (st.sessions.map (fun s => s.id)).Nodup) :
    (cleanupOldSessions st).sessions.length ≤ MAX_SESSIONS := by
  by_cases h : MAX_SESSIONS < st.sessions.length
  · exact le_of_eq (cleanupOldSessions_overflow st hnd h).2
  · rw [cleanupOldSessions_of_le st h]
    omega

/-- The demo ids are pairwise distinct. -/
theorem aId_injective : Function.Injective aId := by
  intro i j h
  have h2 : List.replicate i 'a' = List.replicate j 'a' := congrArg String.data h
  have h3 := congrArg List.length h2
  simpa using h3

/-- The ids of `demoSessions n` are duplicate-free. -/
theorem demoSessions_ids_nodup (n : Nat) :
    ((demoSessions n).map (fun s => s.id)).Nodup := by
  rw [demoSessions, List.map_map]
  exact List.Nodup.map (fun a b h => aId_injective h) (List.nodup_range n)

/-- The ids of `demoSessions n` are pairwise distinct. -/
theorem demoSessions_ids_pairwise (n : Nat) :
    List.Pairwise (fun a b => a.id ≠ b.id) (demoSessions n) := by
  rw [demoSessions, List.pairwise_map]
  exact (List.pairwise_lt_range n).imp
    (fun h heq => absurd (aId_injective heq) (Nat.ne_of_lt h))

/-- `aId m` is fresh for `demoSessions n` whenever `n ≤ m`. -/
theorem demoSessions_fresh (n m : Nat) (hm : n ≤ m) :
    ∀ x ∈ demoSessions n, x.id ≠ aId m := by
  intro x hx
  rw [demoSessions] at hx
  rcases List.mem_map.mp hx with ⟨i, hi, rfl⟩
  intro h
  have := aId_injective h
  have hilt := List.mem_range.mp hi
  omega

/-- The ids of `demoPatterns n` are duplicate-free. -/
theorem demoPatterns_ids_nodup (n : Nat) :
    ((demoPatterns n).map (fun p => p.id)).Nodup := by
  rw [demoPatterns, List.map_map]
  exact List.Nodup.map (fun a b h => aId_injective h) (List.nodup_range n)

/-- `aId m` is fresh for `demoPatterns n` whenever `n ≤ m`. -/
theorem demoPatterns_fresh (n m : Nat) (hm : n ≤ m) :
    ∀ x ∈ demoPatterns n, x.id ≠ aId m := by
  intro x hx
  rw [demoPatterns] at hx
  rcases List.mem_map.mp hx with ⟨i, hi, rfl⟩
  intro h
  have := aId_injective h
  have hilt := List.mem_range.mp hi
  omega

/-- The import loop over pairwise-fresh sessions grows the store by one
record per entry. -/
theorem importData_go_fresh :
    ∀ (data : List Session) (st : Store) (n : Nat),
      (∀ s ∈ data, ∀ x ∈ st.sessions, x.id ≠ s.id) →
      List.Pairwise (fun a b => a.id ≠ b.id) data →
      ((data.foldl
          (fun p session => ({ p.1 with sessions := putSession session p.1.sessions }, p.2 + 1))
          (st, n)).1.sessions.length)
        = st.sessions.length + data.length := by
  intro data
  induction data with
  | nil => intro st n _ _; simp
  | cons s data ih =>
    intro st n hfresh hpw
    rw [List.foldl_cons]
    have hput : putSession s st.sessions = st.sessions ++ [s] := by
      rw [putSession]
      exact putByKey_of_fresh (fun x => x.id) s st.sessions (fun x hx => hfresh s (by simp) x hx)
    show ((data.foldl
        (fun p session => ({ p.1 with sessions := putSession session p.1.sessions }, p.2 + 1))
        (({ st with sessions := putSession s st.sessions } : Store), n + 1)).1.sessions.length) = _
    rw [hput]
    have hfresh2 : ∀ s' ∈ data, ∀ x ∈ ({ st with sessions := st.sessions ++ [s] } : Store).sessions,
        x.id ≠ s'.id := by
      intro s' hs' x hx
      rcases List.mem_append.mp hx with h1 | h1
      · exact hfresh s' (by simp [hs']) x h1
      · have hxs : x = s := by simpa using h1
        subst hxs
        exact (List.pairwise_cons.mp hpw).1 s' hs'
    rw [ih { st with sessions := st.sessions ++ [s] } (n + 1) hfresh2
      (List.pairwise_cons.mp hpw).2]
    simp [List.length_append]
    omega

/-- `importData` of pairwise-fresh sessions grows the store by the
length of the imported list — it performs no cap enforcement. -/
theorem importData_count_fresh (data : List Session) (st : Store)
    (hfresh : ∀ s ∈ data, ∀ x ∈ st.sessions, x.id ≠ s.id)
    (hpw : List.Pairwise (fun a b => a.id ≠ b.id) data) :
    (importData data st).1.sessions.length = st.sessions.length + data.length := by
  rw [importData]
  exact importData_go_fresh data st 0 hfresh hpw

/-- When the pattern store does not overflow, `saveErrorPattern` just
stores the new record. -/
theorem saveErrorPattern_of_le (expected typed : String) (position : Int) (pid : String)
    (now : Int) (st : Store)
    (hlen : ¬ 500 < (putPattern ⟨pid, now, expected, typed, position⟩ st.errorPatterns).length) :
    (saveErrorPattern expected typed position pid now st).2.errorPatterns
      = putPattern ⟨pid, now, expected, typed, position⟩ st.errorPatterns := by
  simp only [saveErrorPattern]
  rw [if_neg hlen]

/-- When a `saveErrorPattern` pushes the pattern count over 500, the
survivors are exactly (a permutation of) the records after the first
`count - 500` of the `by-date` order, and exactly 500 remain. -/
theorem saveErrorPattern_overflow (expected typed : String) (position : Int) (pid : String)
    (now : Int) (st : Store)
    (hnd : ((putPattern ⟨pid, now, expected, typed, position⟩ st.errorPatterns).map
        (fun p => p.id)).Nodup)
    (hlen : 500 < (putPattern ⟨pid, now, expected, typed, position⟩ st.errorPatterns).length) :
    ((saveErrorPattern expected typed position pid now st).2.errorPatterns).Perm
        ((sortPatternsByDate (putPattern ⟨pid, now, expected, typed, position⟩ st.errorPatterns)).drop
          ((putPattern ⟨pid, now, expected, typed, position⟩ st.errorPatterns).length - 500))
      ∧ (saveErrorPattern expected typed position pid now st).2.errorPatterns.length = 500 := by
  have hred : (saveErrorPattern expected typed position pid now st).2.errorPatterns
      = ((sortPatternsByDate (putPattern ⟨pid, now, expected, typed, position⟩ st.errorPatterns)).take
          ((putPattern ⟨pid, now, expected, typed, position⟩ st.errorPatterns).length - 500)).foldl
          (fun cur p => deletePattern p.id cur)
          (putPattern ⟨pid, now, expected, typed, position⟩ st.errorPatterns) := by
    simp only [saveErrorPattern]
    rw [if_pos hlen]
  have hperm : ((saveErrorPattern expected typed position pid now st).2.errorPatterns).Perm
      ((sortPatternsByDate (putPattern ⟨pid, now, expected, typed, position⟩ st.errorPatterns)).drop
        ((putPattern ⟨pid, now, expected, typed, position⟩ st.errorPatterns).length - 500)) := by
    rw [hred, foldl_deletePattern]
    exact evict_filter_perm (fun p => p.id)
      (putPattern ⟨pid, now, expected, typed, position⟩ st.errorPatterns)
      (sortPatternsByDate (putPattern ⟨pid, now, expected, typed, position⟩ st.errorPatterns))
      ((putPattern ⟨pid, now, expected, typed, position⟩ st.errorPatterns).length - 500)
      (List.perm_insertionSort patternDateLe _) hnd
  refine ⟨hperm, ?_⟩
  rw [hperm.length_eq, List.length_drop, sortPatternsByDate, List.length_insertionSort]
  omega

/-- Counterexample to C2 as stated: `importData` enforces no cap, so a
JSON list of 1001 fresh sessions imported into the empty store leaves
1001 records — above `MAX_SESSIONS`. -/
theorem importData_exceeds_cap :
    MAX_SESSIONS < (importData (demoSessions 1001) emptyStore).1.sessions.length := by
  rw [importData_count_fresh (demoSessions 1001) emptyStore
    (fun s _ x hx => absurd hx (by simp [emptyStore]))
    (demoSessions_ids_pairwise 1001)]
  simp only [emptyStore, demoSessions, List.length_map, List.length_range, MAX_SESSIONS]
  omega

/-- C2 (amended): the caps are enforced by the save operations — after
any `saveSession` on a duplicate-free store at most `MAX_SESSIONS`
session records remain, and after any `saveErrorPattern` at most 500
error-pattern records remain.  (`importData` performs no eviction, so
an import can exceed the session cap until the next save.) -/
theorem save_caps_respected (session : Session) (newId : String) (expected typed : String)
    (position : Int) (pid : String) (now : Int) (st : Store)
    (hndS : (st.sessions.map (fun s => s.id)).Nodup)
    (hndP : (st.errorPatterns.map (fun p => p.id)).Nodup) :
    (saveSession session newId st).2.sessions.length ≤ MAX_SESSIONS
      ∧ (saveErrorPattern expected typed position pid now st).2.errorPatterns.length ≤ 500 := by
  constructor
  · have h1 : (saveSession session newId st).2
        = cleanupOldSessions
            { st with sessions := putSession { session with id := newId } st.sessions } := by
      simp only [saveSession]
    rw [h1]
    exact cleanupOldSessions_le _
      (putByKey_nodup (fun s => s.id) { session with id := newId } st.sessions hndS)
  · by_cases h : 500 < (putPattern ⟨pid, now, expected, typed, position⟩ st.errorPatterns).length
    · exact le_of_eq (saveErrorPattern_overflow expected typed position pid now st
        (putByKey_nodup (fun p => p.id) ⟨pid, now, expected, typed, position⟩
          st.errorPatterns hndP) h).2
    · rw [saveErrorPattern_of_le expected typed position pid now st h]
      omega

/-- Witness for the amended C2: saving into the empty store respects
both caps. -/
theorem save_caps_respected_witness :
    (saveSession (demoSession 0) "b" emptyStore).2.sessions.length ≤ MAX_SESSIONS
      ∧ (saveErrorPattern "q" "w" 0 "c" 9 emptyStore).2.errorPatterns.length ≤ 500 :=
  save_caps_respected (demoSession 0) "b" "q" "w" 0 "c" 9 emptyStore (by decide) (by decide)

/-- C3: a save that pushes a store past its cap deletes exactly the
oldest excess records in `by-date` order and keeps the most recent
cap-many unchanged.  The two stores are independent: whenever the
session store (with duplicate-free ids, a fresh uuid, and at least
1000 records) overflows on a `saveSession`, the surviving sessions are
a permutation of the `by-date` order with its first `count - 1000`
records removed, exactly 1000 survive, and every deleted record's date
is at most every survivor's date — and symmetrically for
`saveErrorPattern` with cap 500, under that store's own hypotheses
alone. -/
theorem save_evicts_oldest (session : Session) (newId : String) (expected typed : String)
    (position : Int) (pid : String) (now : Int) (st : Store) :
    (((st.sessions.map (fun s => s.id)).Nodup →
        (∀ x ∈ st.sessions, x.id ≠ newId) →
        MAX_SESSIONS ≤ st.sessions.length →
        ((((saveSession session newId st).2.sessions).Perm
            ((sortByDate (putSession { session with id := newId } st.sessions)).drop
              ((putSession { session with id := newId } st.sessions).length - MAX_SESSIONS))
          ∧ (saveSession session newId st).2.sessions.length = MAX_SESSIONS
          ∧ (∀ x ∈ (sortByDate (putSession { session with id := newId } st.sessions)).take
                ((putSession { session with id := newId } st.sessions).length - MAX_SESSIONS),
              ∀ y ∈ (sortByDate (putSession { session with id := newId } st.sessions)).drop
                ((putSession { session with id := newId } st.sessions).length - MAX_SESSIONS),
              x.date ≤ y.date))))
      ∧ ((st.errorPatterns.map (fun p => p.id)).Nodup →
          (∀ x ∈ st.errorPatterns, x.id ≠ pid) →
          500 ≤ st.errorPatterns.length →
          ((((saveErrorPattern expected typed position pid now st).2.errorPatterns).Perm
              ((sortPatternsByDate (putPattern ⟨pid, now, expected, typed, position⟩ st.errorPatterns)).drop
                ((putPattern ⟨pid, now, expected, typed, position⟩ st.errorPatterns).length - 500))
            ∧ (saveErrorPattern expected typed position pid now st).2.errorPatterns.length = 500
            ∧ (∀ x ∈ (sortPatternsByDate (putPattern ⟨pid, now, expected, typed, position⟩ st.errorPatterns)).take
                  ((putPattern ⟨pid, now, expected, typed, position⟩ st.errorPatterns).length - 500),
                ∀ y ∈ (sortPatternsByDate (putPattern ⟨pid, now, expected, typed, position⟩ st.errorPatterns)).drop
                  ((putPattern ⟨pid, now, expected, typed, position⟩ st.errorPatterns).length - 500),
                x.date ≤ y.date))))) := by
  constructor
  · intro hndS hfreshS hlenS
    have hputS : putSession { session with id := newId } st.sessions
        = st.sessions ++ [{ session with id := newId }] := by
      rw [putSession]
      exact putByKey_of_fresh (fun x => x.id) { session with id := newId } st.sessions
        (fun x hx => hfreshS x hx)
    have hndA : ((putSession { session with id := newId } st.sessions).map (fun s => s.id)).Nodup :=
      putByKey_nodup (fun s => s.id) { session with id := newId } st.sessions hndS
    have hlenA : MAX_SESSIONS < (putSession { session with id := newId } st.sessions).length := by
      rw [hputS, List.length_append]
      simp only [List.length_cons, List.length_nil]
      omega
    have hsave : (saveSession session newId st).2
        = cleanupOldSessions
            { st with sessions := putSession { session with id := newId } st.sessions } := by
      simp only [saveSession]
    have hov := cleanupOldSessions_overflow
      { st with sessions := putSession { session with id := newId } st.sessions } hndA hlenA
    have hsorted : List.Sorted byDateLe
        (sortByDate (putSession { session with id := newId } st.sessions)) := by
      rw [sortByDate]
      exact List.sorted_insertionSort byDateLe _
    refine ⟨?_, ?_, ?_⟩
    · rw [hsave]
      simpa using hov.1
    · rw [hsave]
      simpa using hov.2
    · exact fun x hx y hy => sorted_take_le_drop byDateLe _ hsorted _ x hx y hy
  · intro hndP hfreshP hlenP
    have hputP : putPattern ⟨pid, now, expected, typed, position⟩ st.errorPatterns
        = st.errorPatterns ++ [⟨pid, now, expected, typed, position⟩] := by
      rw [putPattern]
      exact putByKey_of_fresh (fun x => x.id) ⟨pid, now, expected, typed, position⟩
        st.errorPatterns (fun x hx => hfreshP x hx)
    have hndAP : ((putPattern ⟨pid, now, expected, typed, position⟩ st.errorPatterns).map
        (fun p => p.id)).Nodup :=
      putByKey_nodup (fun p => p.id) ⟨pid, now, expected, typed, position⟩ st.errorPatterns hndP
    have hlenAP : 500 < (putPattern ⟨pid, now, expected, typed, position⟩ st.errorPatterns).length := by
      rw [hputP, List.length_append]
      simp only [List.length_cons, List.length_nil]
      omega
    have hovP := saveErrorPattern_overflow expected typed position pid now st hndAP hlenAP
    have hsortedP : List.Sorted patternDateLe
        (sortPatternsByDate (putPattern ⟨pid, now, expected, typed, position⟩ st.errorPatterns)) := by
      rw [sortPatternsByDate]
      exact List.sorted_insertionSort patternDateLe _
    exact ⟨hovP.1, hovP.2,
      fun x hx y hy => sorted_take_le_drop patternDateLe _ hsortedP _ x hx y hy⟩

/-- Witness for C3, one store per conjunct: a store holding only 1000
sessions is trimmed back to the session cap by the next `saveSession`,
and a store holding only 500 error patterns is trimmed back to 500 by
the next `saveErrorPattern`. -/
theorem save_evicts_oldest_witness :
    (saveSession (demoSession 0) (aId 2000) demoStoreSessionsOnly).2.sessions.length
        = MAX_SESSIONS
      ∧ (saveErrorPattern "q" "w" 0 (aId 3000) 999 demoStorePatternsOnly).2.errorPatterns.length
        = 500 := by
  have h1 : (demoStoreSessionsOnly.sessions.map (fun s => s.id)).Nodup := by
    have h := demoSessions_ids_nodup 1000
    simpa [demoStoreSessionsOnly, emptyStore] using h
  have h2 : ∀ x ∈ demoStoreSessionsOnly.sessions, x.id ≠ aId 2000 := by
    have h := demoSessions_fresh 1000 2000 (by omega)
    simpa [demoStoreSessionsOnly, emptyStore] using h
  have h3 : MAX_SESSIONS ≤ demoStoreSessionsOnly.sessions.length := by
    simp [demoStoreSessionsOnly, emptyStore, demoSessions, MAX_SESSIONS]
  have h4 : (demoStorePatternsOnly.errorPatterns.map (fun p => p.id)).Nodup := by
    have h := demoPatterns_ids_nodup 500
    simpa [demoStorePatternsOnly, emptyStore] using h
  have h5 : ∀ x ∈ demoStorePatternsOnly.errorPatterns, x.id ≠ aId 3000 := by
    have h := demoPatterns_fresh 500 3000 (by omega)
    simpa [demoStorePatternsOnly, emptyStore] using h
  have h6 : (500 : Nat) ≤ demoStorePatternsOnly.errorPatterns.length := by
    simp [demoStorePatternsOnly, emptyStore, demoPatterns]
  exact ⟨((save_evicts_oldest (demoSession 0) (aId 2000) "q" "w" 0 (aId 3000) 999
      demoStoreSessionsOnly).1 h1 h2 h3).2.1,
    ((save_evicts_oldest (demoSession 0) (aId 2000) "q" "w" 0 (aId 3000) 999
      demoStorePatternsOnly).2 h4 h5 h6).2.1⟩

/-- Everything `exportData` emits is a record of the store. -/
theorem exportData_mem (st : Store) : ∀ s ∈ exportData st, s ∈ st.sessions := by
  intro s hs
  rw [exportData, getSessions] at hs
  have h1 := List.mem_of_mem_take hs
  rw [List.mem_reverse, sortByDate] at h1
  exact (List.perm_insertionSort byDateLe st.sessions).mem_iff.mp h1

/-- The import loop over sessions the store already holds (with
duplicate-free ids) re-puts equal records: the store is unchanged and
only the counter grows. -/
theorem importData_go_mem (st : Store) (hnd : (st.sessions.map (fun s => s.id)).Nodup) :
    ∀ (data : List Session) (n : Nat), (∀ s ∈ data, s ∈ st.sessions) →
      (data.foldl
          (fun p session => ({ p.1 with sessions := putSession session p.1.sessions }, p.2 + 1))
          (st, n))
        = (st, n + data.length) := by
  intro data
  induction data with
  | nil => intro n _; simp
  | cons s data ih =>
    intro n hmem
    rw [List.foldl_cons]
    have hput : putSession s st.sessions = st.sessions := by
      rw [putSession]
      exact putByKey_of_mem_nodup (fun x => x.id) s st.sessions (hmem s (by simp)) hnd
    show (data.foldl
        (fun p session => ({ p.1 with sessions := putSession session p.1.sessions }, p.2 + 1))
        (({ st with sessions := putSession s st.sessions } : Store), n + 1)) = _
    rw [hput]
    have hself : ({ st with sessions := st.sessions } : Store) = st := rfl
    rw [hself, ih (n + 1) (fun x hx => hmem x (by simp [hx]))]
    simp only [List.length_cons, Prod.mk.injEq]
    exact ⟨trivial, by omega⟩

/-- C4: export→import round-trips on the same store: re-importing the
exported session list leaves the store exactly as it was and returns
the number of imported sessions; and whenever the store is within the
cap the exported list is (a permutation of) the full session list, so
the same ids and field values come back. -/
theorem export_import_roundtrip (st : Store)
    (hnd : (st.sessions.map (fun s => s.id)).Nodup) :
    importData (exportData st) st = (st, (exportData st).length)
      ∧ (st.sessions.length ≤ MAX_SESSIONS → (exportData st).Perm st.sessions) := by
  constructor
  · rw [importData]
    have h := importData_go_mem st hnd (exportData st) 0 (exportData_mem st)
    simpa using h
  · intro hle
    rw [exportData, getSessions]
    have hlen2 : ((sortByDate st.sessions).reverse).length ≤ MAX_SESSIONS := by
      rw [List.length_reverse, sortByDate, List.length_insertionSort]
      exact hle
    rw [List.take_of_length_le hlen2]
    exact (List.reverse_perm _).trans
      (by rw [sortByDate]; exact List.perm_insertionSort byDateLe st.sessions)

/-- Witness for C4: the round trip on a concrete two-session store. -/
theorem export_import_roundtrip_witness :
    importData (exportData demoStoreTwo) demoStoreTwo
      = (demoStoreTwo, (exportData demoStoreTwo).length) := by
  have hnd : (demoStoreTwo.sessions.map (fun s => s.id)).Nodup := by
    have h := demoSessions_ids_nodup 2
    simpa [demoStoreTwo, emptyStore] using h
  exact (export_import_roundtrip demoStoreTwo hnd).1
